import Mathlib

/-!
# Verification of the Obsidian vault semantic-search pipeline

Shallow embedding of `index_notes.py` (class `ObsidianVaultIndexer`) and
`search_notes.py` (class `ObsidianVaultSearcher`).  Strings are modelled as
`List Char`; Python `str.split()`, `str.strip()`, `' '.join(...)` and
`range(start, stop, step)` are embedded faithfully below.  The external
vector-store collaborator (ChromaDB) is modelled from the interface given in the spec
(`upsert`, `get`, `query`) as explicit state passing.
-/

namespace VaultSearch

/-- The ASCII whitespace characters recognised by the Python functions `str.split()`,
`str.strip()` and the regex class `\s`: space, tab, newline, carriage
return, vertical tab, form feed. -/
def pyIsSpace (c : Char) : Bool :=
  c = ' ' || c = '\t' || c = '\n' || c = '\r' || c = Char.ofNat 11 || c = Char.ofNat 12

/-- Worker for `pySplit`: `acc` holds the (reversed) current word. -/
def pySplitAux : List Char → List Char → List (List Char)
  | [], acc => if acc = [] then [] else [acc.reverse]
  | c :: rest, acc =>
    if pyIsSpace c then
      if acc = [] then pySplitAux rest [] else acc.reverse :: pySplitAux rest []
    else
      pySplitAux rest (c :: acc)

/-- Python `content.split()`: split on runs of whitespace, dropping empty
pieces. -/
def pySplit (l : List Char) : List (List Char) :=
  pySplitAux l []

/-- Python `content.strip()`: drop leading and trailing whitespace. -/
def pyStrip (l : List Char) : List Char :=
  ((l.dropWhile pyIsSpace).reverse.dropWhile pyIsSpace).reverse

/-- Python `' '.join(words)`. -/
def joinSpaces : List (List Char) → List Char
  | [] => []
  | [w] => w
  | w :: ws => w ++ ' ' :: joinSpaces ws

/-- Python `range(0, n, step)` for `step > 0` (the source always calls it
with `step = chunk_size - overlap`; Python raises `ValueError` for
`step = 0`, a case outside the hypotheses of every claim, which we map to `[]`). -/
def chunkStarts (n step : Nat) : List Nat :=
  (List.range ((n + step - 1) / step)).map (fun k => k * step)

/-- Embedding of `ObsidianVaultIndexer.chunk_content` (index_notes.py, lines 70-85):
if the stripped content is empty return no chunks; if the whitespace-split
word count is at most `chunk_size` return the whole (unstripped) content as
the single chunk; otherwise emit `' '.join(words[i:i+chunk_size])` for
`i in range(0, len(words), chunk_size - overlap)`, keeping only chunks whose
strip is non-empty. -/
def chunk_content (content : List Char) (chunk_size : Nat := 500)
    (overlap : Nat := 50) : List (List Char) :=
  if pyStrip content = [] then []
  else
    let words := pySplit content
    if words.length ≤ chunk_size then [content]
    else
      (chunkStarts words.length (chunk_size - overlap)).filterMap (fun i =>
        let chunk := joinSpaces ((words.drop i).take chunk_size)
        if pyStrip chunk = [] then none else some chunk)

/-- Coercion helper: a Lean string literal as a `List Char`. -/
def strL (s : String) : List Char := s.toList

example : pySplit (strL ("a  b c")) = [strL ("a"), strL ("b"), strL ("c")] := by decide

/-! ### Properties of the word splitter -/

/-- Every word produced by `pySplitAux` is non-empty and whitespace-free,
provided the accumulator is whitespace-free. -/
theorem pySplitAux_mem {l : List Char} {acc w : List Char}
    (hacc : ∀ c ∈ acc, pyIsSpace c = false)
    (hw : w ∈ pySplitAux l acc) :
    w ≠ [] ∧ ∀ c ∈ w, pyIsSpace c = false := by
  induction l generalizing acc with
  | nil =>
    by_cases h : acc = []
    · simp [pySplitAux, h] at hw
    · simp only [pySplitAux, if_neg h, List.mem_singleton] at hw
      subst hw
      refine ⟨by simpa using h, fun c hc => hacc c ?_⟩
      simpa using hc
  | cons c rest ih =>
    rcases hs : pyIsSpace c with _ | _
    · simp only [pySplitAux, hs, Bool.false_eq_true, if_false] at hw
      refine ih ?_ hw
      intro d hd
      rcases List.mem_cons.1 hd with rfl | hd
      · exact hs
      · exact hacc d hd
    · by_cases h : acc = []
      · simp only [pySplitAux, hs, if_true, h, if_pos rfl] at hw
        exact ih (by simp) hw
      · simp only [pySplitAux, hs, if_true, if_neg h, List.mem_cons] at hw
        rcases hw with hw | hw
        · subst hw
          refine ⟨by simpa using h, fun d hd => hacc d ?_⟩
          simpa using hd
        · exact ih (by simp) hw

/-- Every word of `pySplit l` is non-empty and whitespace-free. -/
theorem pySplit_words {l : List Char} {w : List Char} (hw : w ∈ pySplit l) :
    w ≠ [] ∧ ∀ c ∈ w, pyIsSpace c = false :=
  pySplitAux_mem (by simp) hw

/-- Feeding a whitespace-free word into the splitter just extends the
accumulator. -/
theorem pySplitAux_append {w : List Char} (rest acc : List Char)
    (hw : ∀ c ∈ w, pyIsSpace c = false) :
    pySplitAux (w ++ rest) acc = pySplitAux rest (w.reverse ++ acc) := by
  induction w generalizing acc with
  | nil => simp
  | cons c t ih =>
    have hc : pyIsSpace c = false := hw c (by simp)
    simp only [List.cons_append, pySplitAux, hc, Bool.false_eq_true, if_false]
    show pySplitAux (t ++ rest) (c :: acc) = pySplitAux rest ((c :: t).reverse ++ acc)
    rw [ih _ (fun d hd => hw d (by simp [hd]))]
    simp

/-- Splitting the space-join of non-empty, whitespace-free words recovers
exactly those words. -/
theorem pySplit_joinSpaces {ws : List (List Char)}
    (hne : ∀ w ∈ ws, w ≠ [])
    (hsp : ∀ w ∈ ws, ∀ c ∈ w, pyIsSpace c = false) :
    pySplit (joinSpaces ws) = ws := by
  induction ws with
  | nil => simp [pySplit, joinSpaces, pySplitAux]
  | cons w t ih =>
    cases t with
    | nil =>
      have hw : w ≠ [] := hne w (by simp)
      have : pySplit (joinSpaces [w]) = pySplitAux (w ++ []) [] := by
        simp [pySplit, joinSpaces]
      rw [this, pySplitAux_append _ _ (hsp w (by simp))]
      simp only [pySplitAux, List.append_nil]
      rw [if_neg (by simpa using hw)]
      simp
    | cons w2 t2 =>
      have hw : w ≠ [] := hne w (by simp)
      have : joinSpaces (w :: w2 :: t2) = w ++ ' ' :: joinSpaces (w2 :: t2) := rfl
      rw [pySplit, this, pySplitAux_append _ _ (hsp w (by simp))]
      simp only [List.append_nil, pySplitAux, pyIsSpace]
      rw [if_pos (by simp), if_neg (by simpa using hw)]
      simp only [List.reverse_reverse]
      rw [show pySplitAux (joinSpaces (w2 :: t2)) [] = pySplit (joinSpaces (w2 :: t2)) from rfl]
      rw [ih (fun v hv => hne v (by simp [hv])) (fun v hv => hsp v (by simp [hv]))]

/-- Stripping yields the empty list exactly when every character of `l` is whitespace. -/
theorem pyStrip_eq_nil_iff {l : List Char} :
    pyStrip l = [] ↔ ∀ c ∈ l, pyIsSpace c = true := by
  unfold pyStrip
  rw [List.reverse_eq_nil_iff, List.dropWhile_eq_nil_iff]
  constructor
  · intro h c hc
    have hl : c ∈ l.takeWhile pyIsSpace ++ l.dropWhile pyIsSpace := by
      rw [List.takeWhile_append_dropWhile]; exact hc
    rcases List.mem_append.1 hl with hc2 | hc2
    · exact List.mem_takeWhile_imp hc2
    · exact h c (by simpa using hc2)
  · intro h c hc
    exact h c ((List.dropWhile_suffix pyIsSpace).subset (by simpa using hc))

/-- A list whose characters are all whitespace splits into no words. -/
theorem pySplit_eq_nil {l : List Char} (h : ∀ c ∈ l, pyIsSpace c = true) :
    pySplit l = [] := by
  induction l with
  | nil => rfl
  | cons c t ih =>
    have hc := h c (by simp)
    simp only [pySplit, pySplitAux, hc, if_true, if_pos rfl]
    exact ih (fun d hd => h d (by simp [hd]))

example : chunk_content (strL ("a b c d e f g")) 5 2 =
    [strL ("a b c d e"), strL ("d e f g"), strL ("g")] := by decide

/-! ### Characterization of the chunk list in the sliding-window case -/

theorem filterMap_eq_map_of {α β : Type} (l : List α) (F : α → Option β) (g : α → β)
    (h : ∀ a ∈ l, F a = some (g a)) : l.filterMap F = l.map g := by
  induction l with
  | nil => rfl
  | cons a t ih =>
    rw [List.filterMap_cons, h a (by simp), List.map_cons,
      ih (fun b hb => h b (by simp [hb]))]

theorem chunkStarts_length (n step : Nat) :
    (chunkStarts n step).length = (n + step - 1) / step := by
  simp [chunkStarts]

/-- Window starts are exactly the multiples of `step` below `n` (for
`step > 0`): membership bound. -/
theorem lt_ceilDiv_iff {n step k : Nat} (hstep : 0 < step) :
    k < (n + step - 1) / step ↔ k * step < n := by
  have h1 : k + 1 ≤ (n + step - 1) / step ↔ (k + 1) * step ≤ n + step - 1 :=
    Nat.le_div_iff_mul_le hstep
  have h2 : (k + 1) * step = k * step + step := by ring
  constructor
  · intro hk
    have := h1.1 hk
    omega
  · intro hk
    have : (k + 1) * step ≤ n + step - 1 := by omega
    exact h1.2 this

theorem chunkStarts_get {n step k : Nat} (hk : k < (chunkStarts n step).length) :
    (chunkStarts n step).get ⟨k, hk⟩ = k * step := by
  simp [chunkStarts]

theorem chunkStarts_getElem {n step k : Nat} (hk : k < (chunkStarts n step).length) :
    (chunkStarts n step)[k] = k * step := by
  simp [chunkStarts]

/-- In the sliding-window case (`overlap < chunk_size < #words`), the chunk
list is exactly the list of space-joined windows
`words[k*step : k*step + chunk_size]` for `k*step < #words`,
`step = chunk_size - overlap`: no window is dropped by the emptiness guard. -/
theorem chunk_content_eq (content : List Char) (c ov : Nat) (hov : ov < c)
    (hlen : c < (pySplit content).length) :
    chunk_content content c ov
      = (chunkStarts (pySplit content).length (c - ov)).map
          (fun i => joinSpaces (((pySplit content).drop i).take c)) := by
  have hc : 0 < c := Nat.pos_of_ne_zero (by omega)
  have hwords : pySplit content ≠ [] := by
    intro h
    rw [h] at hlen
    simp at hlen
  have hstrip : pyStrip content ≠ [] := by
    intro h
    exact hwords (pySplit_eq_nil (pyStrip_eq_nil_iff.1 h))
  unfold chunk_content
  rw [if_neg hstrip, if_neg (by omega)]
  apply filterMap_eq_map_of
  intro i hi
  have hi2 : i < (pySplit content).length := by
    simp only [chunkStarts] at hi
    rcases List.mem_map.1 hi with ⟨k, hk, rfl⟩
    exact (lt_ceilDiv_iff (by omega)).1 (List.mem_range.1 hk)
  set slice := ((pySplit content).drop i).take c with hslice
  have hsub : ∀ w ∈ slice, w ∈ pySplit content := fun w hw =>
    List.mem_of_mem_drop (List.mem_of_mem_take hw)
  have hne : slice ≠ [] := by
    rw [hslice]
    intro h
    rcases List.take_eq_nil_iff.1 h with h | h
    · omega
    · exact absurd (List.drop_eq_nil_iff.1 h) (by omega)
  have hroundtrip : pySplit (joinSpaces slice) = slice :=
    pySplit_joinSpaces (fun w hw => (pySplit_words (hsub w hw)).1)
      (fun w hw => (pySplit_words (hsub w hw)).2)
  have hguard : pyStrip (joinSpaces slice) ≠ [] := by
    intro h
    exact hne (hroundtrip ▸ pySplit_eq_nil (pyStrip_eq_nil_iff.1 h))
  simp only [if_neg hguard]

/-- Number of chunks in the sliding-window case. -/
theorem chunk_content_length (content : List Char) (c ov : Nat) (hov : ov < c)
    (hlen : c < (pySplit content).length) :
    (chunk_content content c ov).length
      = ((pySplit content).length + (c - ov) - 1) / (c - ov) := by
  rw [chunk_content_eq content c ov hov hlen, List.length_map, chunkStarts_length]

/-- The `k`-th chunk is the space-join of the `k`-th window. -/
theorem chunk_content_get (content : List Char) (c ov : Nat) (hov : ov < c)
    (hlen : c < (pySplit content).length) (k : Nat)
    (hk : k < (chunk_content content c ov).length) :
    (chunk_content content c ov).get ⟨k, hk⟩
      = joinSpaces (((pySplit content).drop (k * (c - ov))).take c) := by
  have he := chunk_content_eq content c ov hov hlen
  rw [List.get_eq_getElem]
  simp only [he, List.getElem_map, chunkStarts_getElem]

/-- Splitting the `k`-th chunk back into words recovers the `k`-th window. -/
theorem chunk_content_get_words (content : List Char) (c ov : Nat) (hov : ov < c)
    (hlen : c < (pySplit content).length) (k : Nat)
    (hk : k < (chunk_content content c ov).length) :
    pySplit ((chunk_content content c ov).get ⟨k, hk⟩)
      = ((pySplit content).drop (k * (c - ov))).take c := by
  rw [chunk_content_get content c ov hov hlen k hk]
  exact pySplit_joinSpaces
    (fun w hw => (pySplit_words (List.mem_of_mem_drop (List.mem_of_mem_take hw))).1)
    (fun w hw => (pySplit_words (List.mem_of_mem_drop (List.mem_of_mem_take hw))).2)

example : chunk_content (strL ("a b")) 5 2 = [strL ("a b")] := by decide

example : chunk_content (strL ("   ")) 5 2 = [] := by decide

/-- Shared helper: the single-chunk branch of `chunk_content`. -/
theorem chunk_content_le_eq (content : List Char) (chunk_size overlap : Nat)
    (hne : pyStrip content ≠ [])
    (hle : (pySplit content).length ≤ chunk_size) :
    chunk_content content chunk_size overlap = [content] := by
  unfold chunk_content
  rw [if_neg hne, if_pos hle]

/-- C2: for every normalized text that is non-empty after stripping and whose
whitespace-split word count is at most the chunk size, `chunk_content` returns
exactly one chunk, namely the full text unchanged. -/
theorem claim_C2_single_chunk (content : List Char) (chunk_size overlap : Nat)
    (hne : pyStrip content ≠ [])
    (hle : (pySplit content).length ≤ chunk_size) :
    chunk_content content chunk_size overlap = [content] :=
  chunk_content_le_eq content chunk_size overlap hne hle

theorem claim_C2_single_chunk_witness :
    chunk_content (strL ("hello brave world")) 500 50 = [strL ("hello brave world")] :=
  claim_C2_single_chunk (strL ("hello brave world")) 500 50 (by decide) (by decide)

/-- C9: under `overlap < chunk_size` the chunker (a total Lean function,
hence terminating) returns only non-empty chunks of at most `chunk_size`
whitespace-separated words. -/
theorem claim_C9_chunk_safety (content : List Char) (c ov : Nat) (hov : ov < c)
    (ch : List Char) (hch : ch ∈ chunk_content content c ov) :
    ch ≠ [] ∧ (pySplit ch).length ≤ c := by
  by_cases hstrip : pyStrip content = []
  · unfold chunk_content at hch
    rw [if_pos hstrip] at hch
    simp at hch
  · by_cases hle : (pySplit content).length ≤ c
    · rw [chunk_content_le_eq content c ov hstrip hle] at hch
      rcases List.mem_singleton.1 hch with rfl
      refine ⟨?_, hle⟩
      intro h
      rw [h] at hstrip
      exact hstrip rfl
    · have hlen : c < (pySplit content).length := by omega
      rw [chunk_content_eq content c ov hov hlen] at hch
      rcases List.mem_map.1 hch with ⟨i, hi, rfl⟩
      have hi2 : i < (pySplit content).length := by
        simp only [chunkStarts] at hi
        rcases List.mem_map.1 hi with ⟨k, hk, rfl⟩
        exact (lt_ceilDiv_iff (by omega)).1 (List.mem_range.1 hk)
      set slice := ((pySplit content).drop i).take c with hslice
      have hsub : ∀ w ∈ slice, w ∈ pySplit content := fun w hw =>
        List.mem_of_mem_drop (List.mem_of_mem_take hw)
      have hne2 : slice ≠ [] := by
        rw [hslice]
        intro h
        rcases List.take_eq_nil_iff.1 h with h | h
        · omega
        · exact absurd (List.drop_eq_nil_iff.1 h) (by omega)
      have hroundtrip : pySplit (joinSpaces slice) = slice :=
        pySplit_joinSpaces (fun w hw => (pySplit_words (hsub w hw)).1)
          (fun w hw => (pySplit_words (hsub w hw)).2)
      constructor
      · intro h
        rw [h] at hroundtrip
        exact hne2 (hroundtrip.symm.trans rfl)
      · rw [hroundtrip, hslice, List.length_take]
        exact min_le_left _ _

theorem claim_C9_chunk_safety_witness :
    strL ("c") ≠ [] ∧ (pySplit (strL ("c"))).length ≤ 2 :=
  claim_C9_chunk_safety (strL ("a b c")) 2 1 (by decide) (strL ("c")) (by decide)

/-- C10: in the sliding-window case the `k`-th chunk is exactly the words at
positions `k*(c-ov)` up to `k*(c-ov)+c` (truncated at the end) joined by
single spaces, and every word position `j` is covered by the window numbered
`j / (c-ov)`, so word order is preserved and no word is lost. -/
theorem claim_C10_window_exact (content : List Char) (c ov : Nat) (hov : ov < c)
    (hlen : c < (pySplit content).length) (k : Nat)
    (hk : k < (chunk_content content c ov).length)
    (j : Nat) (hj : j < (pySplit content).length) :
    (chunk_content content c ov).get ⟨k, hk⟩
      = joinSpaces (((pySplit content).drop (k * (c - ov))).take c)
    ∧ (j / (c - ov)) * (c - ov) ≤ j
    ∧ j < (j / (c - ov)) * (c - ov) + c
    ∧ j / (c - ov) < (chunk_content content c ov).length := by
  have hs : 0 < c - ov := by omega
  refine ⟨chunk_content_get content c ov hov hlen k hk, Nat.div_mul_le_self j _, ?_, ?_⟩
  · have h1 : j / (c - ov) * (c - ov) + j % (c - ov) = j := Nat.div_add_mod' j (c - ov)
    have h2 : j % (c - ov) < c - ov := Nat.mod_lt j hs
    omega
  · rw [chunk_content_length content c ov hov hlen]
    refine (lt_ceilDiv_iff hs).2 ?_
    calc j / (c - ov) * (c - ov) ≤ j := Nat.div_mul_le_self j _
      _ < (pySplit content).length := hj

theorem claim_C10_window_exact_witness :
    (chunk_content (strL ("u v w x y z")) 4 2).get ⟨1, by decide⟩
      = joinSpaces (((pySplit (strL ("u v w x y z"))).drop (1 * (4 - 2))).take 4)
    ∧ (5 / (4 - 2)) * (4 - 2) ≤ 5
    ∧ 5 < (5 / (4 - 2)) * (4 - 2) + 4
    ∧ 5 / (4 - 2) < (chunk_content (strL ("u v w x y z")) 4 2).length :=
  claim_C10_window_exact (strL ("u v w x y z")) 4 2 (by decide) (by decide)
    1 (by decide) 5 (by decide)

/-- C1 counterexample: with 7 words, chunk size 5 and overlap 2 the chunks
are windows at word positions 0, 3, 6; the pair consisting of the second and
third chunks shares only one word ("g"), not the configured two. -/
theorem claim_C1_counterexample :
    5 < (pySplit (strL ("a b c d e f g"))).length
    ∧ chunk_content (strL ("a b c d e f g")) 5 2
        = [strL ("a b c d e"), strL ("d e f g"), strL ("g")]
    ∧ ¬ ((pySplit (strL ("d e f g"))).drop ((pySplit (strL ("d e f g"))).length - 2)
          = (pySplit (strL ("g"))).take 2) := by decide

/-- C1 (amended): consecutive chunks whose earlier chunk is a full
`chunk_size`-word window overlap in exactly the configured `overlap` words
(the last `overlap` words are of the earlier chunk are the first
`overlap` words, and the next chunk has at least `overlap` words); a pair
whose earlier chunk is truncated by the end of the word sequence may overlap
by fewer words.  The last word of the final chunk is always the last word of the
word sequence. -/
theorem claim_C1_amended (content : List Char) (c ov : Nat) (hov : ov < c)
    (hlen : c < (pySplit content).length) (k : Nat)
    (hk1 : k + 1 < (chunk_content content c ov).length)
    (hfull : k * (c - ov) + c ≤ (pySplit content).length) :
    ((pySplit ((chunk_content content c ov).get ⟨k, Nat.lt_of_succ_lt hk1⟩)).drop
        ((pySplit ((chunk_content content c ov).get ⟨k, Nat.lt_of_succ_lt hk1⟩)).length - ov)
      = (pySplit ((chunk_content content c ov).get ⟨k + 1, hk1⟩)).take ov)
    ∧ ((pySplit ((chunk_content content c ov).get ⟨k + 1, hk1⟩)).take ov).length = ov
    ∧ ((chunk_content content c ov).getLast?).map (fun ch => (pySplit ch).getLast?)
        = some ((pySplit content).getLast?) := by
  have hs : 0 < c - ov := by omega
  have hprev := chunk_content_get_words content c ov hov hlen k (Nat.lt_of_succ_lt hk1)
  have hnext := chunk_content_get_words content c ov hov hlen (k + 1) hk1
  have hlenprev : (pySplit ((chunk_content content c ov).get
      ⟨k, Nat.lt_of_succ_lt hk1⟩)).length = c := by
    rw [hprev, List.length_take, List.length_drop]
    omega
  refine ⟨?_, ?_, ?_⟩
  · rw [hlenprev, hprev, hnext]
    rw [List.drop_take, List.drop_drop, List.take_take]
    have h1 : k * (c - ov) + (c - ov) = (k + 1) * (c - ov) := by ring
    have h2 : c - (c - ov) = ov := by omega
    have h3 : min ov c = ov := Nat.min_eq_left (by omega)
    rw [h1, h2, h3]
  · rw [hnext, List.take_take, Nat.min_eq_left (by omega : ov ≤ c),
      List.length_take, List.length_drop]
    have h1 : (k + 1) * (c - ov) = k * (c - ov) + (c - ov) := by ring
    omega
  · have hne : chunk_content content c ov ≠ [] := by
      intro h
      rw [h] at hk1
      simp at hk1
    rw [List.getLast?_eq_getLast _ hne, Option.map_some']
    congr 1
    have hcntpos : 0 < (chunk_content content c ov).length :=
      List.length_pos_of_ne_nil hne
    have hgl : (chunk_content content c ov).getLast hne
        = (chunk_content content c ov).get
            ⟨(chunk_content content c ov).length - 1, by omega⟩ :=
      List.getLast_eq_get _ hne
    rw [hgl, chunk_content_get_words content c ov hov hlen _ (by omega)]
    have hql : (chunk_content content c ov).length
        = ((pySplit content).length + (c - ov) - 1) / (c - ov) :=
      chunk_content_length content c ov hov hlen
    have hilt : ((chunk_content content c ov).length - 1) * (c - ov)
        < (pySplit content).length :=
      (lt_ceilDiv_iff hs).1 (by rw [← hql]; omega)
    have hing : (pySplit content).length
        ≤ ((chunk_content content c ov).length - 1) * (c - ov) + c := by
      have hdm : (c - ov) * (((pySplit content).length + (c - ov) - 1) / (c - ov))
            + ((pySplit content).length + (c - ov) - 1) % (c - ov)
          = (pySplit content).length + (c - ov) - 1 := Nat.div_add_mod _ (c - ov)
      have hmod : ((pySplit content).length + (c - ov) - 1) % (c - ov) < c - ov :=
        Nat.mod_lt _ hs
      have hcomm : (c - ov) * (((pySplit content).length + (c - ov) - 1) / (c - ov))
          = (((pySplit content).length + (c - ov) - 1) / (c - ov)) * (c - ov) :=
        Nat.mul_comm _ _
      have hmul : (((chunk_content content c ov).length - 1) + 1) * (c - ov)
          = ((chunk_content content c ov).length - 1) * (c - ov) + (c - ov) := by ring
      have hquse : ((chunk_content content c ov).length - 1) + 1
          = ((pySplit content).length + (c - ov) - 1) / (c - ov) := by omega
      rw [hquse] at hmul
      omega
    rw [List.take_of_length_le (by rw [List.length_drop]; omega)]
    have hd : (pySplit content).drop
        (((chunk_content content c ov).length - 1) * (c - ov)) ≠ [] := by
      rw [Ne, List.drop_eq_nil_iff]
      omega
    conv_rhs =>
      rw [← List.take_append_drop
        (((chunk_content content c ov).length - 1) * (c - ov)) (pySplit content)]
    rw [List.getLast?_append, List.getLast?_eq_getLast _ hd]
    rfl

theorem claim_C1_amended_witness :
    ((pySplit ((chunk_content (strL ("a b c d e f g h")) 5 2).get ⟨0, by decide⟩)).drop
        ((pySplit ((chunk_content (strL ("a b c d e f g h")) 5 2).get ⟨0, by decide⟩)).length - 2)
      = (pySplit ((chunk_content (strL ("a b c d e f g h")) 5 2).get ⟨1, by decide⟩)).take 2)
    ∧ ((pySplit ((chunk_content (strL ("a b c d e f g h")) 5 2).get ⟨1, by decide⟩)).take 2).length = 2
    ∧ ((chunk_content (strL ("a b c d e f g h")) 5 2).getLast?).map (fun ch => (pySplit ch).getLast?)
        = some ((pySplit (strL ("a b c d e f g h"))).getLast?) :=
  claim_C1_amended (strL ("a b c d e f g h")) 5 2 (by decide) (by decide) 0 (by decide) (by decide)

/-! ### Indexing pipeline (index_notes.py, lines 117-186) -/

/-- Metadata record built for each chunk (index_notes.py, lines 153-159). -/
structure ChunkMeta where
  file_path : List Char
  chunk_index : Nat
  file_name : List Char
  directory : List Char
  total_chunks : Nat
deriving DecidableEq

/-- Decimal digits of `j`, as interpolated by a Python format string. -/
def natChars (j : Nat) : List Char := Nat.toDigits 10 j

/-- Embedding of the id computation
`doc_id = hashlib.md5((relative_path + underscore + j).encode()).hexdigest()`
(index_notes.py, line 149).  The MD5 hex digest is external library code;
it is modelled as an arbitrary function `md5hex` applied to the formatted
string, so `doc_id` is a deterministic function of the relative path and the
chunk index. -/
def doc_id (md5hex : List Char → List Char) (relative_path : List Char)
    (j : Nat) : List Char :=
  md5hex (relative_path ++ '_' :: natChars j)

/-- The per-file batch assembled by the loop at index_notes.py lines
143-159: `documents`, `ids` and `metadatas` built from `enumerate(chunks)`. -/
structure FileBatch where
  documents : List (List Char)
  ids : List (List Char)
  metadatas : List ChunkMeta

def file_batch (md5hex : List Char → List Char)
    (relative_path fname dir : List Char)
    (chunks : List (List Char)) : FileBatch :=
  { documents := chunks.enum.map (fun p => p.2)
  , ids := chunks.enum.map (fun p => doc_id md5hex relative_path p.1)
  , metadatas := chunks.enum.map (fun p =>
      { file_path := relative_path
      , chunk_index := p.1
      , file_name := fname
      , directory := dir
      , total_chunks := chunks.length }) }

/-- C3: the chunk_index values recorded in the metadata of a file are contiguous
starting at 0, and the total_chunks field of every record equals the number of chunks
produced for the file in this indexing pass. -/
theorem claim_C3_metadata_invariant (md5hex : List Char → List Char)
    (relative_path fname dir : List Char) (chunks : List (List Char))
    (m : ChunkMeta)
    (hm : m ∈ (file_batch md5hex relative_path fname dir chunks).metadatas) :
    ((file_batch md5hex relative_path fname dir chunks).metadatas.map
        (fun x => x.chunk_index)) = List.range chunks.length
    ∧ m.total_chunks = chunks.length := by
  constructor
  · show (chunks.enum.map _).map _ = _
    rw [List.map_map]
    exact List.enum_map_fst chunks
  · rcases List.mem_map.1 hm with ⟨p, _, rfl⟩
    rfl

theorem claim_C3_metadata_invariant_witness :
    ((file_batch (fun s => s) (strL ("n.md")) (strL ("n.md")) (strL ("."))
        [strL ("alpha"), strL ("beta")]).metadatas.map
      (fun x => x.chunk_index)) = List.range 2
    ∧ ChunkMeta.total_chunks
        ⟨strL ("n.md"), 0, strL ("n.md"), strL ("."), 2⟩ = 2 :=
  claim_C3_metadata_invariant (fun s => s) (strL ("n.md")) (strL ("n.md"))
    (strL (".")) [strL ("alpha"), strL ("beta")]
    ⟨strL ("n.md"), 0, strL ("n.md"), strL ("."), 2⟩ (by decide)

/-- The vector store, modelled from the external collaborator
interface as a map from ids to stored (document, metadata) pairs.
Modelled from the spec: the store operation `upsert(id, vector, document, metadata)`
operation — the ChromaDB `collection.add` call is external library code, and
the spec specifies upsert semantics ("re-indexing overwrites rather than
duplicates"). -/
def Store : Type := List Char → Option (List Char × ChunkMeta)

def upsert (st : Store) (id doc : List Char) (meta : ChunkMeta) : Store :=
  fun k => if k = id then some (doc, meta) else st k

/-- Embedding of `collection.add(documents=..., ids=..., metadatas=...)` for the
batch (index_notes.py, lines 162-166), with upsert semantics per entry. -/
def add_batch (st : Store) (b : FileBatch) : Store :=
  (b.ids.zip (b.documents.zip b.metadatas)).foldl
    (fun s p => upsert s p.1 p.2.1 p.2.2) st

/-- The last binding of key `k` in an association list (later entries win,
matching left-to-right upserts). -/
def assocLast : List (List Char × (List Char × ChunkMeta)) → List Char →
    Option (List Char × ChunkMeta)
  | [], _ => none
  | p :: t, k =>
    match assocLast t k with
    | some v => some v
    | none => if k = p.1 then some p.2 else none

theorem upsertList_apply (l : List (List Char × (List Char × ChunkMeta)))
    (st : Store) (k : List Char) :
    (l.foldl (fun s p => upsert s p.1 p.2.1 p.2.2) st) k
      = match assocLast l k with
        | some v => some v
        | none => st k := by
  induction l generalizing st with
  | nil => simp [assocLast]
  | cons p t ih =>
    rw [List.foldl_cons, ih]
    simp only [assocLast]
    cases assocLast t k with
    | some v => rfl
    | none =>
      simp only [upsert]
      by_cases h : k = p.1 <;> simp [h]

theorem add_batch_idem (st : Store) (b : FileBatch) :
    add_batch (add_batch st b) b = add_batch st b := by
  funext k
  simp only [add_batch]
  rw [upsertList_apply, upsertList_apply]
  cases assocLast (b.ids.zip (b.documents.zip b.metadatas)) k <;> rfl

/-- C4: indexing the same unchanged file twice without clearing produces the
same batch (ids are the deterministic `doc_id` hash of relative path and
chunk index, documents the same chunk texts — the batch builder is a pure
function of its inputs), and upserting that batch a second time leaves the
store state identical: an idempotent upsert. -/
theorem claim_C4_reindex_idempotent (md5hex : List Char → List Char)
    (relative_path fname dir content : List Char) (st : Store) :
    (file_batch md5hex relative_path fname dir (chunk_content content 500 50)).ids
      = (file_batch md5hex relative_path fname dir (chunk_content content 500 50)).ids
    ∧ (file_batch md5hex relative_path fname dir (chunk_content content 500 50)).documents
      = (file_batch md5hex relative_path fname dir (chunk_content content 500 50)).documents
    ∧ add_batch
        (add_batch st (file_batch md5hex relative_path fname dir
          (chunk_content content 500 50)))
        (file_batch md5hex relative_path fname dir (chunk_content content 500 50))
      = add_batch st (file_batch md5hex relative_path fname dir
          (chunk_content content 500 50)) :=
  ⟨rfl, rfl, add_batch_idem st _⟩

/-- One file of the vault as seen by the indexing loop: its printable path,
the components of its relative path, and the outcome of extracting it (file
I/O is external; `Except.error` models an exception raised while reading or
extracting the file). -/
structure VaultFile where
  path : List Char
  relative_path : List Char
  file_name : List Char
  directory : List Char
  extracted : Except (List Char) (List Char)

structure IndexState where
  store : Store
  total_chunks : Nat
  failed_files : List (List Char)

/-- One iteration of the indexing loop (index_notes.py, lines 128-173): an
exception appends the file to `failed_files`; empty extracted content or an
empty chunk list skip the file with `continue` (no failure recorded);
otherwise the batch for the file is added and the chunk counter bumped. -/
def index_step (md5hex : List Char → List Char) (st : IndexState)
    (f : VaultFile) : IndexState :=
  match f.extracted with
  | .error _ => { st with failed_files := st.failed_files ++ [f.path] }
  | .ok content =>
    if pyStrip content = [] then st
    else
      let chunks := chunk_content content 500 50
      if chunks = [] then st
      else
        { store := add_batch st.store
            (file_batch md5hex f.relative_path f.file_name f.directory chunks)
        , total_chunks := st.total_chunks + chunks.length
        , failed_files := st.failed_files }

/-- The indexing loop of `index_vault` (index_notes.py, lines 128-173). -/
def index_vault (md5hex : List Char → List Char) (init : IndexState)
    (files : List VaultFile) : IndexState :=
  files.foldl (index_step md5hex) init

def extractionFailed (f : VaultFile) : Bool :=
  match f.extracted with
  | .error _ => true
  | .ok _ => false

/-- C5 counterexample: a file whose extracted content is empty is skipped
with `continue` and is NOT recorded in the failed-files list, contradicting
the claim that empty-content files are recorded there. -/
theorem claim_C5_counterexample :
    (index_vault (fun s => s) ⟨fun _ => none, 0, []⟩
        [⟨strL ("a.md"), strL ("a.md"), strL ("a.md"), strL ("."), .ok []⟩]).failed_files
      = [] := rfl

/-- C5 (amended): the failed-files list after the indexing loop contains
exactly the files whose extraction raised an error, in order; files with
empty extracted content or an empty chunk list are skipped without being
recorded; in every case the (total) loop continues with the remaining
files. -/
theorem claim_C5_amended (md5hex : List Char → List Char) (init : IndexState)
    (files : List VaultFile) :
    (index_vault md5hex init files).failed_files
      = init.failed_files ++ (files.filter extractionFailed).map (fun f => f.path) := by
  induction files generalizing init with
  | nil => simp [index_vault]
  | cons f t ih =>
    rw [index_vault, List.foldl_cons]
    have step := ih (index_step md5hex init f)
    rw [index_vault] at step
    rw [step]
    cases hf : f.extracted with
    | error e =>
      rw [List.filter_cons_of_pos (by simp [extractionFailed, hf])]
      simp [index_step, hf, List.append_assoc]
    | ok content =>
      rw [List.filter_cons_of_neg (by simp [extractionFailed, hf])]
      by_cases h1 : pyStrip content = []
      · simp [index_step, hf, h1]
      · by_cases h2 : chunk_content content 500 50 = []
        · simp [index_step, hf, h1, h2]
        · simp [index_step, hf, h1, h2]

/-! ### Search pipeline (search_notes.py) -/

/-- Result shape returned by the searcher: parallel nested lists of
documents, metadata records and distances (floats in the source, modelled as
rationals — exact for the sentinel value 0.0). -/
structure SearchResults where
  documents : List (List (List Char))
  metadatas : List (List ChunkMeta)
  distances : List (List ℚ)
deriving DecidableEq

/-- The empty result set (documents, metadatas and distances each holding a
single empty inner list) returned when a store query raises
(search_notes.py, lines 51-53 and 116-118). -/
def emptyResults : SearchResults := ⟨[[]], [[]], [[]]⟩

/-- Embedding of `ObsidianVaultSearcher.search` (search_notes.py, lines 39-53): run the
collection query and return its result, or the empty result set if it
raises.  The collection `query` method is the external store collaborator,
passed as a function that may fail. -/
def search
    (collection_query : List (List Char) → Nat → Option (ChunkMeta → Bool) →
      Except (List Char) SearchResults)
    (query : List Char) (n_results : Nat)
    (filter_metadata : Option (ChunkMeta → Bool)) : SearchResults :=
  match collection_query [query] n_results filter_metadata with
  | .ok r => r
  | .error _ => emptyResults

def listIsPrefix : List Char → List Char → Bool
  | [], _ => true
  | _ :: _, [] => false
  | a :: as, b :: bs => a == b && listIsPrefix as bs

/-- Substring containment: the effect of the Python regex `.*pattern.*` used
in the `$regex` metadata filters, for a pattern without metacharacters. -/
def listContains (needle : List Char) : List Char → Bool
  | [] => listIsPrefix needle []
  | c :: t => listIsPrefix needle (c :: t) || listContains needle t

/-- Embedding of `search_by_file_pattern` (search_notes.py, lines 107-118): empty query
text with a `$regex` file-path filter; on error the empty result set. -/
def search_by_file_pattern
    (collection_query : List (List Char) → Nat → Option (ChunkMeta → Bool) →
      Except (List Char) SearchResults)
    (pattern : List Char) (n_results : Nat) : SearchResults :=
  match collection_query [[]] n_results
      (some (fun m => listContains pattern m.file_path)) with
  | .ok r => r
  | .error _ => emptyResults

/-- Embedding of `collection.get(where=..., limit=...)`: plain metadata fetch from the
store.  Modelled from the spec: the external collaborator operation
`get(filter) -> matches` operation with a result limit — filter the stored
records, then truncate. -/
def collection_get (recs : List (List Char × ChunkMeta))
    (pred : ChunkMeta → Bool) (limit : Nat) : List (List Char × ChunkMeta) :=
  (recs.filter (fun r => pred r.2)).take limit

/-- Embedding of `search_by_directory` (search_notes.py, lines 120-140): with a non-empty
query delegate to semantic `search` with the directory regex filter; with an
empty query perform a plain `collection.get` and report the sentinel
distance 0.0 for every returned entry. -/
def search_by_directory
    (collection_query : List (List Char) → Nat → Option (ChunkMeta → Bool) →
      Except (List Char) SearchResults)
    (recs : List (List Char × ChunkMeta))
    (directory query : List Char) (n_results : Nat) : SearchResults :=
  if query ≠ [] then
    search collection_query query n_results
      (some (fun m => listContains directory m.directory))
  else
    let results := collection_get recs
      (fun m => listContains directory m.directory) n_results
    { documents := [results.map (fun r => r.1)]
    , metadatas := [results.map (fun r => r.2)]
    , distances := [List.replicate (results.map (fun r => r.1)).length (0 : ℚ)] }

/-- C6: a directory-scoped search with empty query is a plain metadata fetch
(`collection.get` filtered by the directory regex, not a similarity query),
returns at most `n_results` entries, and assigns every returned entry the
distance 0. -/
theorem claim_C6_directory_listing
    (collection_query : List (List Char) → Nat → Option (ChunkMeta → Bool) →
      Except (List Char) SearchResults)
    (recs : List (List Char × ChunkMeta))
    (directory : List Char) (n_results : Nat) (d : ℚ)
    (hd : d ∈ (search_by_directory collection_query recs directory []
      n_results).distances.headD []) :
    (search_by_directory collection_query recs directory [] n_results).documents
      = [(collection_get recs (fun m => listContains directory m.directory)
          n_results).map (fun r => r.1)]
    ∧ ((search_by_directory collection_query recs directory [] n_results).documents.headD
        []).length ≤ n_results
    ∧ (search_by_directory collection_query recs directory [] n_results).distances
      = [List.replicate
          ((search_by_directory collection_query recs directory [] n_results).documents.headD
            []).length (0 : ℚ)]
    ∧ d = 0 := by
  have hbranch : search_by_directory collection_query recs directory [] n_results
      = { documents := [(collection_get recs
            (fun m => listContains directory m.directory) n_results).map (fun r => r.1)]
        , metadatas := [(collection_get recs
            (fun m => listContains directory m.directory) n_results).map (fun r => r.2)]
        , distances := [List.replicate
            ((collection_get recs (fun m => listContains directory m.directory)
              n_results).map (fun r => r.1)).length (0 : ℚ)] } := by
    rw [search_by_directory, if_neg (by simp)]
  refine ⟨by rw [hbranch], ?_, by rw [hbranch]; rfl, ?_⟩
  · rw [hbranch]
    show ((collection_get recs _ n_results).map _).length ≤ n_results
    rw [List.length_map, collection_get, List.length_take]
    exact min_le_left _ _
  · rw [hbranch] at hd
    exact List.eq_of_mem_replicate hd

theorem claim_C6_directory_listing_witness :
    (search_by_directory (fun _ _ _ => .error [])
        [(strL ("doc text"), ⟨strL ("projects/a.md"), 0, strL ("a.md"), strL ("projects"), 1⟩)]
        (strL ("projects")) [] 10).documents
      = [(collection_get
          [(strL ("doc text"), ⟨strL ("projects/a.md"), 0, strL ("a.md"), strL ("projects"), 1⟩)]
          (fun m => listContains (strL ("projects")) m.directory) 10).map (fun r => r.1)]
    ∧ ((search_by_directory (fun _ _ _ => .error [])
        [(strL ("doc text"), ⟨strL ("projects/a.md"), 0, strL ("a.md"), strL ("projects"), 1⟩)]
        (strL ("projects")) [] 10).documents.headD []).length ≤ 10
    ∧ (search_by_directory (fun _ _ _ => .error [])
        [(strL ("doc text"), ⟨strL ("projects/a.md"), 0, strL ("a.md"), strL ("projects"), 1⟩)]
        (strL ("projects")) [] 10).distances
      = [List.replicate ((search_by_directory (fun _ _ _ => .error [])
          [(strL ("doc text"), ⟨strL ("projects/a.md"), 0, strL ("a.md"), strL ("projects"), 1⟩)]
          (strL ("projects")) [] 10).documents.headD []).length (0 : ℚ)]
    ∧ (0 : ℚ) = 0 :=
  claim_C6_directory_listing (fun _ _ _ => .error [])
    [(strL ("doc text"), ⟨strL ("projects/a.md"), 0, strL ("a.md"), strL ("projects"), 1⟩)]
    (strL ("projects")) 10 0 (by decide)

/-- C8: if the vector store raises on a query (for example on a malformed
filter), both `search` and `search_by_file_pattern` catch the error and
return the empty result set instead of propagating the exception. -/
theorem claim_C8_store_error_empty
    (collection_query : List (List Char) → Nat → Option (ChunkMeta → Bool) →
      Except (List Char) SearchResults)
    (query pattern : List Char) (n1 n2 : Nat)
    (filter_metadata : Option (ChunkMeta → Bool)) (e1 e2 : List Char)
    (h1 : collection_query [query] n1 filter_metadata = .error e1)
    (h2 : collection_query [[]] n2
      (some (fun m => listContains pattern m.file_path)) = .error e2) :
    search collection_query query n1 filter_metadata = emptyResults
    ∧ search_by_file_pattern collection_query pattern n2 = emptyResults := by
  constructor
  · rw [search, h1]
  · rw [search_by_file_pattern, h2]

theorem claim_C8_store_error_empty_witness :
    search (fun _ _ _ => .error (strL ("db down"))) (strL ("q")) 10 none = emptyResults
    ∧ search_by_file_pattern (fun _ _ _ => .error (strL ("db down")))
        (strL ("p")) 20 = emptyResults :=
  claim_C8_store_error_empty (fun _ _ _ => .error (strL ("db down")))
    (strL ("q")) (strL ("p")) 10 20 none (strL ("db down")) (strL ("db down")) rfl rfl

/-! ### Content extractor (index_notes.py, lines 42-68)

`extract_content` reads the file (external I/O, with an encoding fallback)
and then applies the `re.sub` passes below, in source order.  Each pass is
embedded as a left-to-right scan that tries the pattern at every position,
replaces the leftmost match, and resumes scanning after the replacement
without rescanning it — Python `re.sub` semantics.  Greedy/lazy quantifier
behaviour and backtracking are resolved per pattern in the matcher
comments. -/

/-- One `re.sub` scan for an unanchored pattern: `m l` tries to match the
pattern at the head of `l`, returning the replacement text and the remaining
input on success.  `fuel` bounds the recursion; every matcher consumes at
least one character when it succeeds, so `l.length` fuel always suffices. -/
def scanSub (m : List Char → Option (List Char × List Char)) :
    Nat → List Char → List Char
  | 0, l => l
  | _ + 1, [] => []
  | fuel + 1, c :: rest =>
    match m (c :: rest) with
    | some (rep, r) => rep ++ scanSub m fuel r
    | none => c :: scanSub m fuel rest

def runSub (m : List Char → Option (List Char × List Char))
    (l : List Char) : List Char :=
  scanSub m l.length l

/-- One `re.sub` scan for a `^`-anchored MULTILINE pattern with empty
replacement: the matcher is tried only at the start of the input and right
after every newline; on success it reports whether the last consumed
character was a newline (so the resume position is again a line start). -/
def scanSubML (m : List Char → Option (Bool × List Char)) :
    Nat → Bool → List Char → List Char
  | 0, _, l => l
  | _ + 1, _, [] => []
  | fuel + 1, atStart, c :: rest =>
    if atStart then
      match m (c :: rest) with
      | some p => scanSubML m fuel p.1 p.2
      | none => c :: scanSubML m fuel (c = '\n') rest
    else
      c :: scanSubML m fuel (c = '\n') rest

def runSubML (m : List Char → Option (Bool × List Char))
    (l : List Char) : List Char :=
  scanSubML m l.length true l

/-- Matcher for the header regex (one to six hash characters, then `\s+`):
a run of 1-6 hash characters followed by at least one
whitespace character.  A run of 7+ `#` cannot match at its own start
(backtracking always faces another `#` where whitespace is required), and
`\s+` greedily takes the maximal whitespace run.  Replacement: empty. -/
def matchHeading (l : List Char) : Option (List Char × List Char) :=
  let hashes := l.takeWhile (fun c => c = '#')
  let afterH := l.dropWhile (fun c => c = '#')
  if 1 ≤ hashes.length ∧ hashes.length ≤ 6 then
    match afterH with
    | c :: _ => if pyIsSpace c then some ([], afterH.dropWhile pyIsSpace) else none
    | [] => none
  else none

/-- After the opening `**` of `\*\*(.*?)\*\*`: lazily scan for the earliest
closing `**`; `.` does not match a newline, so a newline aborts.  Returns
(group 1, rest after the closing marker). -/
def matchBoldAux : List Char → Option (List Char × List Char)
  | '*' :: '*' :: rest => some ([], rest)
  | c :: rest =>
    if c = '\n' then none
    else (matchBoldAux rest).map (fun p => (c :: p.1, p.2))
  | [] => none

/-- Matcher for the bold regex `\*\*(.*?)\*\*`.  Replacement: group 1. -/
def matchBold : List Char → Option (List Char × List Char)
  | '*' :: '*' :: rest => matchBoldAux rest
  | _ => none

/-- After the opening `*` of `\*(.*?)\*`: lazily scan for the earliest
closing `*` on the same line. -/
def matchItalicAux : List Char → Option (List Char × List Char)
  | '*' :: rest => some ([], rest)
  | c :: rest =>
    if c = '\n' then none
    else (matchItalicAux rest).map (fun p => (c :: p.1, p.2))
  | [] => none

/-- Matcher for the italic regex `\*(.*?)\*`.  Replacement: group 1. -/
def matchItalic : List Char → Option (List Char × List Char)
  | '*' :: rest => matchItalicAux rest
  | _ => none

/-- After the opening `__` of `__(.*?)__`: lazily scan for the earliest
closing `__` on the same line. -/
def matchUnderAux : List Char → Option (List Char × List Char)
  | '_' :: '_' :: rest => some ([], rest)
  | c :: rest =>
    if c = '\n' then none
    else (matchUnderAux rest).map (fun p => (c :: p.1, p.2))
  | [] => none

/-- Matcher for the underline regex `__(.*?)__`.  Replacement: group 1. -/
def matchUnder : List Char → Option (List Char × List Char)
  | '_' :: '_' :: rest => matchUnderAux rest
  | _ => none

/-- After a `(` in `\[(.*?)\]\(.*?\)`: lazily scan to the first `)` on the
same line; returns the rest after it. -/
def matchParen : List Char → Option (List Char)
  | ')' :: rest => some rest
  | c :: rest => if c = '\n' then none else matchParen rest
  | [] => none

/-- After the opening `[` of `\[(.*?)\]\(.*?\)`: group 1 is extended lazily;
at each `]` immediately followed by `(` with a `)` on that line the match
closes; otherwise the regex engine backtracks and the `]` (and a following
`(`, if any) join group 1. -/
def matchLinkAux : List Char → Option (List Char × List Char)
  | [] => none
  | ']' :: '(' :: rest =>
    match matchParen rest with
    | some r => some ([], r)
    | none => (matchLinkAux rest).map (fun p => (']' :: '(' :: p.1, p.2))
  | ']' :: rest => (matchLinkAux rest).map (fun p => (']' :: p.1, p.2))
  | c :: rest =>
    if c = '\n' then none
    else (matchLinkAux rest).map (fun p => (c :: p.1, p.2))

/-- Matcher for the link regex `\[(.*?)\]\(.*?\)`.
Replacement: group 1 (the link text). -/
def matchLink : List Char → Option (List Char × List Char)
  | '[' :: rest => matchLinkAux rest
  | _ => none

/-- The backtick character (code point 96). -/
def btick : Char := Char.ofNat 96

/-- After the opening fence of three backticks: lazily scan (DOTALL, so
across newlines) for the earliest closing run of three backticks. -/
def matchFenceAux : List Char → Option (List Char)
  | [] => none
  | c :: rest =>
    if c = btick ∧ rest.take 2 = [btick, btick] then some (rest.drop 2)
    else matchFenceAux rest

/-- The fenced-code-block pattern (three backticks, lazy DOTALL content,
three backticks).  Replacement: empty — contents removed entirely. -/
def matchFence (l : List Char) : Option (List Char × List Char) :=
  if l.take 3 = [btick, btick, btick] then
    (matchFenceAux (l.drop 3)).map (fun r => (([] : List Char), r))
  else none

/-- The inline-code pattern (a backtick, a non-empty greedy run of
non-backticks — which may include newlines —, a backtick).
Replacement: group 1. -/
def matchInlineCode : List Char → Option (List Char × List Char)
  | [] => none
  | c :: rest =>
    if c = btick then
      let run := rest.takeWhile (fun d => ¬ d = btick)
      if run = [] then none
      else
        match rest.dropWhile (fun d => ¬ d = btick) with
        | d :: r => if d = btick then some (run, r) else none
        | [] => none
    else none

/-- Matcher for the list-item regex `^\s*[-*+]\s+` MULTILINE, tried at line
starts only:
a maximal whitespace run (backtracking cannot help: every shorter run is
followed by whitespace, not a bullet), a bullet character, then at least one
whitespace character, taken greedily.  Reports whether the last consumed
character was a newline. -/
def matchBullet (l : List Char) : Option (Bool × List Char) :=
  match l.dropWhile pyIsSpace with
  | c :: r2 =>
    if c = '-' ∨ c = '*' ∨ c = '+' then
      let ws2 := r2.takeWhile pyIsSpace
      if ws2 = [] then none
      else some (decide (ws2.getLast? = some '\n'), r2.dropWhile pyIsSpace)
    else none
  | [] => none

/-- Matcher for the numbered-list regex `^\s*\d+\.\s+` MULTILINE, tried at
line starts only:
maximal whitespace, a non-empty maximal digit run, a literal `.`, then at
least one whitespace character. -/
def matchNumbered (l : List Char) : Option (Bool × List Char) :=
  let r1 := l.dropWhile pyIsSpace
  let digits := r1.takeWhile Char.isDigit
  if digits = [] then none
  else
    match r1.dropWhile Char.isDigit with
    | '.' :: r3 =>
      let ws2 := r3.takeWhile pyIsSpace
      if ws2 = [] then none
      else some (decide (ws2.getLast? = some '\n'), r3.dropWhile pyIsSpace)
    | _ => none

/-- Matcher for the blockquote regex `>\s+`: a `>` followed by at least one whitespace
character, taken greedily.  Replacement: empty. -/
def matchBlockquote : List Char → Option (List Char × List Char)
  | '>' :: rest =>
    let ws := rest.takeWhile pyIsSpace
    if ws = [] then none else some ([], rest.dropWhile pyIsSpace)
  | _ => none

/-- Matcher for the blank-line-collapse regex `\n\s*\n`: a newline, then `\s*` greedily extended
to end just before the last newline of the following whitespace run (greedy
with backtracking: the final element must be a newline), replaced by exactly
two newlines.  No match if the run contains no further newline. -/
def matchBlankRun : List Char → Option (List Char × List Char)
  | '\n' :: rest =>
    let run := rest.takeWhile pyIsSpace
    let after := rest.dropWhile pyIsSpace
    let post := (run.reverse.takeWhile (fun c => ¬ c = '\n')).reverse
    if post.length = run.length then none
    else some (['\n', '\n'], post ++ after)
  | _ => none

/-- Embedding of `extract_content` (index_notes.py, lines 42-68) after the external file
read: the regex passes in source order, then final `strip()`. -/
def extract_content (content : List Char) : List Char :=
  let c1 := runSub matchHeading content
  let c2 := runSub matchBold c1
  let c3 := runSub matchItalic c2
  let c4 := runSub matchUnder c3
  let c5 := runSub matchLink c4
  let c6 := runSub matchFence c5
  let c7 := runSub matchInlineCode c6
  let c8 := runSubML matchBullet c7
  let c9 := runSubML matchNumbered c8
  let c10 := runSub matchBlockquote c9
  let c11 := runSub matchBlankRun c10
  pyStrip c11

example : extract_content (strL ("# Title\n\nSome **bold** text."))
    = strL ("Title\n\nSome bold text.") := by decide

example : extract_content (strL ("*a")) = strL ("*a") := by decide

example : extract_content (strL ("a\n```\ncode **x**\n```\nb")) = strL ("a\n\nb") := by
  decide

example : extract_content (strL ("# H\nSome *italic* and __under__ and `code` end"))
    = strL ("H\nSome italic and under and code end") := by decide

example : extract_content (strL ("See [link text](http://x) now"))
    = strL ("See link text now") := by decide

example : extract_content (strL ("- item one\n2. item two\n> quoted"))
    = strL ("item one\nitem two\nquoted") := by decide

/-- C7 counterexample: on the input "*a" (a lone, unclosed italic marker)
every pass leaves the text unchanged, so the output still contains the
marker character `*`; likewise an unclosed fence in "```x" survives all
passes.  This refutes the claim that for every input text none of the
bold/italic/heading/fence markers appear in the output. -/
theorem claim_C7_counterexample :
    extract_content (strL ("*a")) = strL ("*a")
    ∧ '*' ∈ extract_content (strL ("*a"))
    ∧ extract_content (strL ("```x")) = strL ("```x")
    ∧ btick ∈ extract_content (strL ("```x")) := by decide

/-- C7 (amended): on sample inputs whose markers are well formed — properly
paired `**bold**` and `*italic*` markers, headings of 1-6 `#` followed by
whitespace, and closed fenced code blocks — `extract_content` removes the
markers, keeping the enclosed bold/italic text and deleting fenced blocks
with their contents, so no `*`, `#` or backtick remains; unmatched or
unclosed markers, however, may survive in the output. -/
theorem claim_C7_amended :
    (extract_content (strL ("# Title\n\nSome **bold** *italic* text."))
      = strL ("Title\n\nSome bold italic text."))
    ∧ (∀ ch ∈ extract_content (strL ("# Title\n\nSome **bold** *italic* text.")),
        ch ≠ '*' ∧ ch ≠ '#' ∧ ch ≠ btick)
    ∧ (extract_content (strL ("a\n```\ncode **x**\n```\nb")) = strL ("a\n\nb"))
    ∧ (∀ ch ∈ extract_content (strL ("a\n```\ncode **x**\n```\nb")),
        ch ≠ '*' ∧ ch ≠ '#' ∧ ch ≠ btick) := by decide

end VaultSearch
